import Mathlib

/-!
# Verification of the zentype typing-session engine

Shallow embedding of `client/internal/game/game.go` (the typing session
engine) and proofs of the specification claims about it.

Modelling conventions:
* Go `string` values are modelled as `List Char` (rune sequences; the word
  source produces lowercase ASCII words, for which Go's byte length and rune
  length coincide).
* Go `int` fields that the code compares against 0 (`CurrentPos`,
  `GlobalPos`, `TotalErrorsMade`, `Duration`) are modelled as `ℤ`; fields that
  are only ever used as list indices / sizes (`WordsTyped`, `LinesPerView`,
  `CharsPerLine`) as `ℕ`.
* Wall-clock time is modelled as `ℤ` nanoseconds (Go's `time.Time` /
  `time.Duration` hold int64 nanoseconds).  `time.Now()` readings are passed
  explicitly as a `now` argument to the operations that read the clock;
  `time.Since(g.StartTime)` becomes `now - g.StartTime`.  The float64
  conversions `Seconds()` / `Minutes()` are modelled as exact rational
  division (floating-point rounding is out of scope).
* `Errors map[int]bool` only ever stores `true` values, so it is modelled as
  a `Finset ℤ` of positions.
* The word source `GenerateWords` lives outside this package (it is an
  external collaborator in the spec); the words it returns are passed
  explicitly as an argument to the operations that call it.
-/

namespace Zentype

/-- `TypingStats` from game.go: the statistics record returned by `GetStats`. -/
structure TypingStats where
  WPM : ℚ
  Accuracy : ℚ
  CharactersTyped : ℤ
  CorrectChars : ℤ
  TotalChars : ℕ
  TimeElapsed : ℤ
  IsComplete : Bool
  UncorrectedErrors : ℕ
deriving DecidableEq, Repr

/-- `time.Second` in nanoseconds. -/
def nsPerSecond : ℤ := 1000000000

/-- `TypingGame` from game.go: the state of a typing session. -/
structure TypingGame where
  AllWords : List (List Char)
  DisplayLines : List (List Char)
  UserInput : List Char
  CurrentPos : ℤ
  GlobalPos : ℤ
  StartTime : ℤ
  Duration : ℤ
  IsStarted : Bool
  IsFinished : Bool
  Errors : Finset ℤ
  TotalErrorsMade : ℤ
  LinesPerView : ℕ
  CharsPerLine : ℕ
  WordsTyped : ℕ
deriving DecidableEq

/-- `strings.Fields`: split on runs of whitespace, dropping empty pieces. -/
def fields (s : List Char) : List (List Char) :=
  (s.splitOnP (fun c => c.isWhitespace)).filter (fun w => w ≠ [])

/-- The inner loop of `generateDisplayLines`: greedily pack words from the
front of the remaining word list into the current line while they fit within
`charsPerLine`; returns the finished line and the unconsumed words. -/
def fillLine (charsPerLine : ℕ) : List Char → List (List Char) → List Char × List (List Char)
  | cur, [] => (cur, [])
  | cur, w :: ws =>
    let spaceNeeded := if 0 < cur.length then 1 else 0
    if cur.length + spaceNeeded + w.length ≤ charsPerLine then
      fillLine charsPerLine (if 0 < cur.length then cur ++ ' ' :: w else w) ws
    else
      (cur, w :: ws)

/-- The outer loop of `generateDisplayLines`: build up to `n` lines from the
remaining words; stops early when the words run out (the padding to
`LinesPerView` entries happens in `generateDisplayLines` itself). -/
def genLines (charsPerLine : ℕ) : ℕ → List (List Char) → List (List Char)
  | 0, _ => []
  | _ + 1, [] => []
  | n + 1, w :: ws =>
    let p := fillLine charsPerLine [] (w :: ws)
    p.1 :: genLines charsPerLine n p.2

/-- `generateDisplayLines` from game.go: regenerate the display window from
the word buffer starting at index `WordsTyped`, padded with empty lines up to
`LinesPerView` entries. -/
def generateDisplayLines (g : TypingGame) : TypingGame :=
  let lines := genLines g.CharsPerLine g.LinesPerView (g.AllWords.drop g.WordsTyped)
  { g with DisplayLines := lines ++ List.replicate (g.LinesPerView - lines.length) [] }

/-- `NewTypingGame` from game.go.  The 200 words that `GenerateWords(200)`
returns are passed in as `initWords` (the word source is an external
collaborator). -/
def NewTypingGame (initWords : List (List Char)) (duration : ℤ) : TypingGame :=
  generateDisplayLines
    { AllWords := initWords
      DisplayLines := []
      UserInput := []
      CurrentPos := 0
      GlobalPos := 0
      StartTime := 0
      Duration := duration
      IsStarted := false
      IsFinished := false
      Errors := ∅
      TotalErrorsMade := 0
      LinesPerView := 3
      CharsPerLine := 50
      WordsTyped := 0 }

/-- `Start` from game.go: record the start timestamp once. -/
def Start (now : ℤ) (g : TypingGame) : TypingGame :=
  if !g.IsStarted then { g with StartTime := now, IsStarted := true } else g

/-- `IsTimeUp` from game.go: `time.Since(StartTime).Seconds() >= float64(Duration)`,
i.e. `(now - StartTime) / 10^9 ≥ Duration` with exact division, which over ℤ
nanoseconds is `Duration * 10^9 ≤ now - StartTime`. -/
def IsTimeUp (now : ℤ) (g : TypingGame) : Bool :=
  if !g.IsStarted then false
  else decide (g.Duration * nsPerSecond ≤ now - g.StartTime)

/-- `shiftLines` from game.go: retire the first display line (adding its word
count to `WordsTyped`), reset the cursor, regenerate the window, and top up
the word buffer when supply runs low.  `newWords` stands for the words that
`GenerateWords(100)` returns when the growth branch fires. -/
def shiftLines (newWords : List (List Char)) (g : TypingGame) : TypingGame :=
  let g1 := { g with
    WordsTyped := g.WordsTyped + (fields (g.DisplayLines.headD [])).length
    CurrentPos := 0 }
  let g2 := generateDisplayLines g1
  if g2.AllWords.length < g2.WordsTyped + 50 then
    { g2 with AllWords := g2.AllWords ++ newWords }
  else
    g2

/-- `AddCharacter` from game.go: process one typed rune. -/
def AddCharacter (now : ℤ) (newWords : List (List Char)) (c : Char) (g : TypingGame) :
    TypingGame :=
  let g := if !g.IsStarted then Start now g else g
  if g.IsFinished || IsTimeUp now g then
    { g with IsFinished := true }
  else
    let lineText := g.DisplayLines.headD []
    if g.CurrentPos = (lineText.length : ℤ) then
      if c = ' ' then
        shiftLines newWords
          { g with
            UserInput := g.UserInput ++ [c]
            CurrentPos := g.CurrentPos + 1
            GlobalPos := g.GlobalPos + 1 }
      else g
    else if g.CurrentPos < (lineText.length : ℤ) ∧ 0 ≤ g.CurrentPos then
      let gI := { g with UserInput := g.UserInput ++ [c] }
      let gE :=
        if lineText.get? g.CurrentPos.toNat ≠ some c then
          { gI with
            Errors := insert g.GlobalPos gI.Errors
            TotalErrorsMade := gI.TotalErrorsMade + 1 }
        else gI
      { gE with CurrentPos := gE.CurrentPos + 1, GlobalPos := gE.GlobalPos + 1 }
    else g

/-- `HandleEnterKey` from game.go: Enter advances the line only when the
cursor sits at the end of the first line; returns whether it fired. -/
def HandleEnterKey (now : ℤ) (newWords : List (List Char)) (g : TypingGame) :
    Bool × TypingGame :=
  if g.IsFinished || IsTimeUp now g then
    (false, g)
  else
    let lineText := g.DisplayLines.headD []
    if g.CurrentPos = (lineText.length : ℤ) then
      (true,
        shiftLines newWords
          { g with
            UserInput := g.UserInput ++ [' ']
            CurrentPos := g.CurrentPos + 1
            GlobalPos := g.GlobalPos + 1 })
    else (false, g)

/-- `RemoveCharacter` from game.go: undo the last keystroke when there is one. -/
def RemoveCharacter (g : TypingGame) : TypingGame :=
  if 0 < g.UserInput.length ∧ 0 < g.CurrentPos then
    let g1 := { g with
      UserInput := g.UserInput.dropLast
      CurrentPos := g.CurrentPos - 1
      GlobalPos := g.GlobalPos - 1 }
    { g1 with Errors := g1.Errors.erase g1.GlobalPos }
  else g

/-- `GetDisplayText` from game.go: the display lines joined by spaces. -/
def GetDisplayText (g : TypingGame) : List Char :=
  List.intercalate [' '] g.DisplayLines

/-- `GetStats` from game.go: derive the statistics record from the session
state and the current wall-clock reading. -/
def GetStats (now : ℤ) (g : TypingGame) : TypingStats :=
  if !g.IsStarted then
    { WPM := 0, Accuracy := 0, CharactersTyped := 0, CorrectChars := 0,
      TotalChars := 0, TimeElapsed := 0, IsComplete := false,
      UncorrectedErrors := 0 }
  else
    let elapsed : ℤ := now - g.StartTime
    let timeForCalculation : ℤ :=
      if IsTimeUp now g then g.Duration * nsPerSecond else elapsed
    let minutes : ℚ := (timeForCalculation : ℚ) / (60 * (nsPerSecond : ℚ))
    let wpm : ℚ := if 0 < minutes then (g.GlobalPos : ℚ) / 5 / minutes else 0
    let correctChars : ℤ := g.GlobalPos - g.TotalErrorsMade
    let accuracy : ℚ :=
      if 0 < g.GlobalPos then (correctChars : ℚ) / (g.GlobalPos : ℚ) * 100 else 0
    let wpm := if wpm < 0 then 0 else wpm
    let accuracy := if accuracy < 0 then 0 else accuracy
    { WPM := wpm
      Accuracy := accuracy
      CharactersTyped := g.GlobalPos
      CorrectChars := correctChars
      TotalChars := (GetDisplayText g).length
      TimeElapsed := timeForCalculation
      IsComplete := g.IsFinished
      UncorrectedErrors := g.Errors.card }

/-- One externally driven mutating event of the session (the presentation
layer dispatches exactly these three into the engine). -/
inductive GameOp where
  | add (now : ℤ) (newWords : List (List Char)) (c : Char)
  | enter (now : ℤ) (newWords : List (List Char))
  | remove
deriving DecidableEq

/-- Apply one event to the session state. -/
def applyOp (g : TypingGame) : GameOp → TypingGame
  | .add now newWords c => AddCharacter now newWords c g
  | .enter now newWords => (HandleEnterKey now newWords g).2
  | .remove => RemoveCharacter g

/-- Run a sequence of events from a state. -/
def runOps (g : TypingGame) : List GameOp → TypingGame
  | [] => g
  | op :: ops => runOps (applyOp g op) ops

/-! ## Helper lemmas -/

theorem generateDisplayLines_proj (g : TypingGame) :
    (generateDisplayLines g).AllWords = g.AllWords ∧
    (generateDisplayLines g).CurrentPos = g.CurrentPos ∧
    (generateDisplayLines g).GlobalPos = g.GlobalPos ∧
    (generateDisplayLines g).Errors = g.Errors ∧
    (generateDisplayLines g).LinesPerView = g.LinesPerView ∧
    (generateDisplayLines g).WordsTyped = g.WordsTyped :=
  ⟨rfl, rfl, rfl, rfl, rfl, rfl⟩

theorem genLines_length_le (cpl : ℕ) : ∀ (n : ℕ) (ws : List (List Char)),
    (genLines cpl n ws).length ≤ n
  | 0, _ => by simp [genLines]
  | n + 1, [] => by simp [genLines]
  | n + 1, w :: ws => by
    simp only [genLines, List.length_cons]
    exact Nat.succ_le_succ (genLines_length_le cpl n _)

theorem generateDisplayLines_length (g : TypingGame) :
    (generateDisplayLines g).DisplayLines.length = g.LinesPerView := by
  simp only [generateDisplayLines, List.length_append, List.length_replicate]
  exact Nat.add_sub_cancel' (genLines_length_le _ _ _)

theorem shiftLines_CurrentPos (ws : List (List Char)) (g : TypingGame) :
    (shiftLines ws g).CurrentPos = 0 := by
  simp only [shiftLines]
  split <;> rfl

theorem shiftLines_length (ws : List (List Char)) (g : TypingGame) :
    (shiftLines ws g).DisplayLines.length = g.LinesPerView := by
  simp only [shiftLines]
  split <;> exact generateDisplayLines_length _

theorem shiftLines_proj (ws : List (List Char)) (g : TypingGame) :
    (shiftLines ws g).UserInput = g.UserInput ∧
    (shiftLines ws g).GlobalPos = g.GlobalPos ∧
    (shiftLines ws g).IsStarted = g.IsStarted ∧
    (shiftLines ws g).IsFinished = g.IsFinished ∧
    (shiftLines ws g).Errors = g.Errors ∧
    (shiftLines ws g).TotalErrorsMade = g.TotalErrorsMade ∧
    (shiftLines ws g).LinesPerView = g.LinesPerView ∧
    (shiftLines ws g).CharsPerLine = g.CharsPerLine ∧
    (shiftLines ws g).WordsTyped
      = g.WordsTyped + (fields (g.DisplayLines.headD [])).length ∧
    (shiftLines ws g).StartTime = g.StartTime ∧
    (shiftLines ws g).Duration = g.Duration := by
  simp only [shiftLines]
  split <;> exact ⟨rfl, rfl, rfl, rfl, rfl, rfl, rfl, rfl, rfl, rfl, rfl⟩

theorem addCharacter_start_comm (now : ℤ) (ws : List (List Char)) (c : Char)
    (g : TypingGame) (h : g.IsStarted = false) :
    AddCharacter now ws c g = AddCharacter now ws c (Start now g) := by
  simp [AddCharacter, Start, h]

/-- The core reachable-state invariant of a session. -/
def Inv (g : TypingGame) : Prop :=
  0 ≤ g.CurrentPos ∧ g.CurrentPos ≤ g.GlobalPos ∧
  (∀ k ∈ g.Errors, k < g.GlobalPos) ∧
  g.DisplayLines.length = g.LinesPerView ∧
  g.LinesPerView = 3

theorem inv_start (now : ℤ) (g : TypingGame) (h : Inv g) : Inv (Start now g) := by
  unfold Start
  split <;> exact h

theorem inv_shiftEvent (ws : List (List Char)) (g : TypingGame) (u : List Char)
    (h : Inv g) :
    Inv (shiftLines ws
      { g with UserInput := u, CurrentPos := g.CurrentPos + 1,
               GlobalPos := g.GlobalPos + 1 }) := by
  obtain ⟨h1, h2, h3, h4, h5⟩ := h
  obtain ⟨_, hg, _, _, he, _, hl, _, _⟩ := shiftLines_proj ws
    { g with UserInput := u, CurrentPos := g.CurrentPos + 1,
             GlobalPos := g.GlobalPos + 1 }
  simp only at hg he hl
  refine ⟨?_, ?_, ?_, ?_, ?_⟩
  · rw [shiftLines_CurrentPos]
  · rw [shiftLines_CurrentPos, hg]; omega
  · intro k hk
    rw [he] at hk
    rw [hg]
    exact lt_trans (h3 k hk) (by omega)
  · rw [shiftLines_length, hl]
  · rw [hl]; exact h5

theorem addCharacter_timeup_eq (now : ℤ) (ws : List (List Char)) (c : Char)
    (g : TypingGame) (hs : g.IsStarted = true)
    (ht : g.IsFinished = true ∨ IsTimeUp now g = true) :
    AddCharacter now ws c g = { g with IsFinished := true } := by
  rcases ht with ht | ht <;>
    simp [AddCharacter, Start, hs, ht]

theorem addCharacter_midline_eq (now : ℤ) (ws : List (List Char)) (c : Char)
    (g : TypingGame) (hs : g.IsStarted = true) (hf : g.IsFinished = false)
    (ht : IsTimeUp now g = false)
    (hlo : 0 ≤ g.CurrentPos)
    (hhi : g.CurrentPos < ((g.DisplayLines.headD []).length : ℤ)) :
    AddCharacter now ws c g =
      if (g.DisplayLines.headD []).get? g.CurrentPos.toNat ≠ some c then
        { g with UserInput := g.UserInput ++ [c]
                 Errors := insert g.GlobalPos g.Errors
                 TotalErrorsMade := g.TotalErrorsMade + 1
                 CurrentPos := g.CurrentPos + 1
                 GlobalPos := g.GlobalPos + 1 }
      else
        { g with UserInput := g.UserInput ++ [c]
                 CurrentPos := g.CurrentPos + 1
                 GlobalPos := g.GlobalPos + 1 } := by
  have hne : ¬ g.CurrentPos = ((g.DisplayLines.headD []).length : ℤ) := Int.ne_of_lt hhi
  simp only [AddCharacter, Start, hs, Bool.not_true, Bool.false_eq_true, if_false,
    hf, ht, Bool.or_self, ite_false]
  rw [if_neg hne, if_pos ⟨hhi, hlo⟩]
  split <;> rfl

theorem addCharacter_atEnd_space_eq (now : ℤ) (ws : List (List Char))
    (g : TypingGame) (hs : g.IsStarted = true) (hf : g.IsFinished = false)
    (ht : IsTimeUp now g = false)
    (he : g.CurrentPos = ((g.DisplayLines.headD []).length : ℤ)) :
    AddCharacter now ws ' ' g =
      shiftLines ws
        { g with UserInput := g.UserInput ++ [' ']
                 CurrentPos := g.CurrentPos + 1
                 GlobalPos := g.GlobalPos + 1 } := by
  simp [AddCharacter, Start, hs, hf, ht, he]

theorem addCharacter_atEnd_nonspace_eq (now : ℤ) (ws : List (List Char)) (c : Char)
    (g : TypingGame) (hs : g.IsStarted = true) (hf : g.IsFinished = false)
    (ht : IsTimeUp now g = false) (hc : c ≠ ' ')
    (he : g.CurrentPos = ((g.DisplayLines.headD []).length : ℤ)) :
    AddCharacter now ws c g = g := by
  simp [AddCharacter, Start, hs, hf, ht, he, hc]

theorem addCharacter_offline_eq (now : ℤ) (ws : List (List Char)) (c : Char)
    (g : TypingGame) (hs : g.IsStarted = true) (hf : g.IsFinished = false)
    (ht : IsTimeUp now g = false)
    (hne : g.CurrentPos ≠ ((g.DisplayLines.headD []).length : ℤ))
    (hout : ¬(g.CurrentPos < ((g.DisplayLines.headD []).length : ℤ) ∧ 0 ≤ g.CurrentPos)) :
    AddCharacter now ws c g = g := by
  simp only [AddCharacter, Start, hs, Bool.not_true, Bool.false_eq_true, if_false,
    hf, ht, Bool.or_self, ite_false]
  rw [if_neg hne, if_neg hout]

theorem handleEnter_timeup_eq (now : ℤ) (ws : List (List Char))
    (g : TypingGame)
    (ht : g.IsFinished = true ∨ IsTimeUp now g = true) :
    HandleEnterKey now ws g = (false, g) := by
  rcases ht with ht | ht <;>
    simp [HandleEnterKey, ht]

theorem handleEnter_atEnd_eq (now : ℤ) (ws : List (List Char))
    (g : TypingGame) (hf : g.IsFinished = false) (ht : IsTimeUp now g = false)
    (he : g.CurrentPos = ((g.DisplayLines.headD []).length : ℤ)) :
    HandleEnterKey now ws g =
      (true, shiftLines ws
        { g with UserInput := g.UserInput ++ [' ']
                 CurrentPos := g.CurrentPos + 1
                 GlobalPos := g.GlobalPos + 1 }) := by
  simp [HandleEnterKey, hf, ht, he]

theorem handleEnter_midline_eq (now : ℤ) (ws : List (List Char))
    (g : TypingGame) (hf : g.IsFinished = false) (ht : IsTimeUp now g = false)
    (hne : g.CurrentPos ≠ ((g.DisplayLines.headD []).length : ℤ)) :
    HandleEnterKey now ws g = (false, g) := by
  simp only [HandleEnterKey, hf, ht, Bool.or_self, Bool.false_eq_true, ite_false]
  rw [if_neg hne]

theorem removeCharacter_noop (g : TypingGame)
    (h : g.CurrentPos = 0 ∨ g.UserInput = []) :
    RemoveCharacter g = g := by
  rcases h with h | h <;> simp [RemoveCharacter, h]

theorem removeCharacter_eq (g : TypingGame)
    (hu : g.UserInput ≠ []) (hp : 0 < g.CurrentPos) :
    RemoveCharacter g =
      { g with UserInput := g.UserInput.dropLast
               CurrentPos := g.CurrentPos - 1
               GlobalPos := g.GlobalPos - 1
               Errors := g.Errors.erase (g.GlobalPos - 1) } := by
  have hl : 0 < g.UserInput.length := List.length_pos.mpr hu
  simp [RemoveCharacter, hl, hp]

theorem bool_eq_false {b : Bool} (h : ¬ b = true) : b = false := by
  revert h; cases b <;> simp

theorem inv_addCharacter (now : ℤ) (ws : List (List Char)) (c : Char)
    (g : TypingGame) (h : Inv g) : Inv (AddCharacter now ws c g) := by
  suffices H : ∀ g' : TypingGame, g'.IsStarted = true → Inv g' →
      Inv (AddCharacter now ws c g') by
    by_cases hs : g.IsStarted = true
    · exact H g hs h
    · rw [addCharacter_start_comm now ws c g (bool_eq_false hs)]
      exact H (Start now g) (by simp [Start, bool_eq_false hs]) (inv_start now g h)
  intro g hs h
  by_cases hf : g.IsFinished = true
  · rw [addCharacter_timeup_eq now ws c g hs (Or.inl hf)]
    exact h
  · by_cases ht : IsTimeUp now g = true
    · rw [addCharacter_timeup_eq now ws c g hs (Or.inr ht)]
      exact h
    · by_cases he : g.CurrentPos = ((g.DisplayLines.headD []).length : ℤ)
      · by_cases hc : c = ' '
        · subst hc
          rw [addCharacter_atEnd_space_eq now ws g hs (bool_eq_false hf)
            (bool_eq_false ht) he]
          exact inv_shiftEvent ws g _ h
        · rw [addCharacter_atEnd_nonspace_eq now ws c g hs (bool_eq_false hf)
            (bool_eq_false ht) hc he]
          exact h
      · by_cases hmid : g.CurrentPos < ((g.DisplayLines.headD []).length : ℤ) ∧
            0 ≤ g.CurrentPos
        · rw [addCharacter_midline_eq now ws c g hs (bool_eq_false hf)
            (bool_eq_false ht) hmid.2 hmid.1]
          obtain ⟨h1, h2, h3, h4, h5⟩ := h
          split
          · refine ⟨by simp only; omega, by simp only; omega, ?_, h4, h5⟩
            intro k hk
            simp only [Finset.mem_insert] at hk
            simp only
            rcases hk with rfl | hk
            · omega
            · have := h3 k hk; omega
          · refine ⟨by simp only; omega, by simp only; omega, ?_, h4, h5⟩
            intro k hk
            simp only at hk
            simp only
            have := h3 k hk; omega
        · rw [addCharacter_offline_eq now ws c g hs (bool_eq_false hf)
            (bool_eq_false ht) he hmid]
          exact h

theorem inv_enter (now : ℤ) (ws : List (List Char)) (g : TypingGame)
    (h : Inv g) : Inv (HandleEnterKey now ws g).2 := by
  by_cases hf : g.IsFinished = true
  · rw [handleEnter_timeup_eq now ws g (Or.inl hf)]; exact h
  · by_cases ht : IsTimeUp now g = true
    · rw [handleEnter_timeup_eq now ws g (Or.inr ht)]; exact h
    · by_cases he : g.CurrentPos = ((g.DisplayLines.headD []).length : ℤ)
      · rw [handleEnter_atEnd_eq now ws g (bool_eq_false hf) (bool_eq_false ht) he]
        exact inv_shiftEvent ws g _ h
      · rw [handleEnter_midline_eq now ws g (bool_eq_false hf) (bool_eq_false ht) he]
        exact h

theorem inv_remove (g : TypingGame) (h : Inv g) : Inv (RemoveCharacter g) := by
  by_cases hu : g.UserInput = []
  · rw [removeCharacter_noop g (Or.inr hu)]; exact h
  · by_cases hp : 0 < g.CurrentPos
    · rw [removeCharacter_eq g hu hp]
      obtain ⟨h1, h2, h3, h4, h5⟩ := h
      refine ⟨by simp only; omega, by simp only; omega, ?_, h4, h5⟩
      intro k hk
      simp only [Finset.mem_erase] at hk
      simp only
      have := h3 k hk.2
      have := hk.1
      omega
    · have : g.CurrentPos = 0 ∨ g.CurrentPos < 0 := by omega
      rcases this with h0 | h0
      · rw [removeCharacter_noop g (Or.inl h0)]; exact h
      · exact absurd h.1 (by omega)

theorem inv_applyOp (g : TypingGame) (op : GameOp) (h : Inv g) :
    Inv (applyOp g op) := by
  cases op with
  | add now ws c => exact inv_addCharacter now ws c g h
  | enter now ws => exact inv_enter now ws g h
  | remove => exact inv_remove g h

theorem inv_runOps (g : TypingGame) (ops : List GameOp) (h : Inv g) :
    Inv (runOps g ops) := by
  induction ops generalizing g with
  | nil => exact h
  | cons op ops ih => exact ih _ (inv_applyOp g op h)

theorem inv_new (w : List (List Char)) (d : ℤ) : Inv (NewTypingGame w d) := by
  refine ⟨le_refl 0, le_refl 0, ?_, ?_, rfl⟩
  · intro k hk
    simp [NewTypingGame, generateDisplayLines] at hk
  · exact generateDisplayLines_length _

theorem inv_reachable (w : List (List Char)) (d : ℤ) (ops : List GameOp) :
    Inv (runOps (NewTypingGame w d) ops) :=
  inv_runOps _ ops (inv_new w d)

/-! ## Claim C1 -/

/-- Seconds expressed in the nanosecond clock. -/
def secNS (n : ℤ) : ℤ := n * nsPerSecond

/-- A session on the line "ab" (duration 10 s) in which the user typed a
correct `a` at time 0. -/
def typedOne : TypingGame :=
  runOps (NewTypingGame [['a', 'b']] 10) [.add 0 [] 'a']

-- clock-preservation helpers

theorem addCharacter_clock (now : ℤ) (ws : List (List Char)) (c : Char)
    (g : TypingGame) (hs : g.IsStarted = true) :
    (AddCharacter now ws c g).IsStarted = true ∧
    (AddCharacter now ws c g).StartTime = g.StartTime := by
  by_cases hf : g.IsFinished = true
  · rw [addCharacter_timeup_eq now ws c g hs (Or.inl hf)]; exact ⟨hs, rfl⟩
  · by_cases ht : IsTimeUp now g = true
    · rw [addCharacter_timeup_eq now ws c g hs (Or.inr ht)]; exact ⟨hs, rfl⟩
    · by_cases he : g.CurrentPos = ((g.DisplayLines.headD []).length : ℤ)
      · by_cases hc : c = ' '
        · subst hc
          rw [addCharacter_atEnd_space_eq now ws g hs (bool_eq_false hf)
            (bool_eq_false ht) he]
          obtain ⟨_, _, hbs, _, _, _, _, _, _, hbt, _⟩ := shiftLines_proj ws
            { g with UserInput := g.UserInput ++ [' ']
                     CurrentPos := g.CurrentPos + 1
                     GlobalPos := g.GlobalPos + 1 }
          rw [hbs, hbt]
          exact ⟨hs, rfl⟩
        · rw [addCharacter_atEnd_nonspace_eq now ws c g hs (bool_eq_false hf)
            (bool_eq_false ht) hc he]
          exact ⟨hs, rfl⟩
      · by_cases hmid : g.CurrentPos < ((g.DisplayLines.headD []).length : ℤ) ∧
            0 ≤ g.CurrentPos
        · rw [addCharacter_midline_eq now ws c g hs (bool_eq_false hf)
            (bool_eq_false ht) hmid.2 hmid.1]
          split <;> exact ⟨hs, rfl⟩
        · rw [addCharacter_offline_eq now ws c g hs (bool_eq_false hf)
            (bool_eq_false ht) he hmid]
          exact ⟨hs, rfl⟩

theorem enter_clock (now : ℤ) (ws : List (List Char)) (g : TypingGame) :
    (HandleEnterKey now ws g).2.IsStarted = g.IsStarted ∧
    (HandleEnterKey now ws g).2.StartTime = g.StartTime := by
  by_cases hf : g.IsFinished = true
  · rw [handleEnter_timeup_eq now ws g (Or.inl hf)]; exact ⟨rfl, rfl⟩
  · by_cases ht : IsTimeUp now g = true
    · rw [handleEnter_timeup_eq now ws g (Or.inr ht)]; exact ⟨rfl, rfl⟩
    · by_cases he : g.CurrentPos = ((g.DisplayLines.headD []).length : ℤ)
      · rw [handleEnter_atEnd_eq now ws g (bool_eq_false hf) (bool_eq_false ht) he]
        obtain ⟨_, _, hbs, _, _, _, _, _, _, hbt, _⟩ := shiftLines_proj ws
          { g with UserInput := g.UserInput ++ [' ']
                   CurrentPos := g.CurrentPos + 1
                   GlobalPos := g.GlobalPos + 1 }
        exact ⟨hbs, hbt⟩
      · rw [handleEnter_midline_eq now ws g (bool_eq_false hf) (bool_eq_false ht) he]
        exact ⟨rfl, rfl⟩

theorem remove_clock (g : TypingGame) :
    (RemoveCharacter g).IsStarted = g.IsStarted ∧
    (RemoveCharacter g).StartTime = g.StartTime := by
  unfold RemoveCharacter
  split <;> exact ⟨rfl, rfl⟩

/-- Claim C1 (amended): when the configured duration has elapsed on a started
session, `AddCharacter` is rejected without changing the typing state and
marks the session Finished; `HandleEnterKey` is rejected (returns `false`)
leaving the whole state unchanged but does not mark Finished; and
`RemoveCharacter` performs no time-up check at all, so it still mutates the
state after time expiry. -/
theorem mutatingOps_timeup_behavior (now : ℤ) (ws : List (List Char)) (c : Char)
    (g : TypingGame) (hs : g.IsStarted = true) (ht : IsTimeUp now g = true) :
    AddCharacter now ws c g = { g with IsFinished := true } ∧
    HandleEnterKey now ws g = (false, g) ∧
    (g.UserInput ≠ [] → 0 < g.CurrentPos →
      (RemoveCharacter g).GlobalPos = g.GlobalPos - 1) :=
  ⟨addCharacter_timeup_eq now ws c g hs (Or.inr ht),
   handleEnter_timeup_eq now ws g (Or.inr ht),
   fun hu hp => by rw [removeCharacter_eq g hu hp]⟩

theorem mutatingOps_timeup_behavior_witness :
    AddCharacter (secNS 20) [] 'x' typedOne = { typedOne with IsFinished := true } ∧
    HandleEnterKey (secNS 20) [] typedOne = (false, typedOne) ∧
    (RemoveCharacter typedOne).GlobalPos = typedOne.GlobalPos - 1 :=
  ⟨(mutatingOps_timeup_behavior (secNS 20) [] 'x' typedOne (by decide) (by decide)).1,
   (mutatingOps_timeup_behavior (secNS 20) [] 'x' typedOne (by decide) (by decide)).2.1,
   (mutatingOps_timeup_behavior (secNS 20) [] 'x' typedOne (by decide) (by decide)).2.2
     (by decide) (by decide)⟩

/-- Claim C1, counterexample: after time is up, `RemoveCharacter` still
mutates the session (it never checks the clock), and it does not mark the
session Finished — refuting the claim that every mutating operation first
checks time-up and is rejected. -/
theorem removeCharacter_after_timeup_mutates :
    IsTimeUp (secNS 20) typedOne = true ∧
    RemoveCharacter typedOne ≠ typedOne ∧
    (RemoveCharacter typedOne).GlobalPos = typedOne.GlobalPos - 1 ∧
    (RemoveCharacter typedOne).IsFinished = false := by
  decide

/-! ## Claim C3 -/

/-- A fresh session whose only word is 51 characters long: the line wrapper
cannot place it, so the first display line is empty and every non-space
keystroke is rejected. -/
def overlongFresh : TypingGame :=
  NewTypingGame [List.replicate 51 'a'] 10

/-- Claim C3, counterexample: on a fresh session whose first display line is
empty, a non-space keystroke is rejected (positions and input unchanged) yet
`AddCharacter` has already started the session and the clock, because `Start`
runs before the accept/reject logic. -/
theorem rejected_keystroke_starts_clock :
    overlongFresh.IsStarted = false ∧
    (AddCharacter (secNS 5) [] 'x' overlongFresh).IsStarted = true ∧
    (AddCharacter (secNS 5) [] 'x' overlongFresh).StartTime = secNS 5 ∧
    (AddCharacter (secNS 5) [] 'x' overlongFresh).GlobalPos = 0 ∧
    (AddCharacter (secNS 5) [] 'x' overlongFresh).CurrentPos = 0 ∧
    (AddCharacter (secNS 5) [] 'x' overlongFresh).UserInput = [] := by
  decide

/-- Claim C3 (amended): the `NotStarted → Running` transition — setting the
start timestamp exactly once — happens on the first `AddCharacter` call,
whether or not the keystroke is accepted; `HandleEnterKey` and
`RemoveCharacter` never start the session, and once started the start
timestamp is never overwritten. -/
theorem session_start_semantics (now : ℤ) (ws : List (List Char)) (c : Char)
    (g : TypingGame) :
    (g.IsStarted = false →
      (AddCharacter now ws c g).IsStarted = true ∧
      (AddCharacter now ws c g).StartTime = now ∧
      (HandleEnterKey now ws g).2.IsStarted = false ∧
      (HandleEnterKey now ws g).2.StartTime = g.StartTime ∧
      (RemoveCharacter g).IsStarted = false ∧
      (RemoveCharacter g).StartTime = g.StartTime) ∧
    (g.IsStarted = true →
      (AddCharacter now ws c g).IsStarted = true ∧
      (AddCharacter now ws c g).StartTime = g.StartTime) := by
  constructor
  · intro hns
    have hstart : (Start now g).IsStarted = true := by simp [Start, hns]
    have hstime : (Start now g).StartTime = now := by simp [Start, hns]
    have hcomm := addCharacter_start_comm now ws c g hns
    have hclock := addCharacter_clock now ws c (Start now g) hstart
    refine ⟨?_, ?_, ?_, ?_, ?_, ?_⟩
    · rw [hcomm]; exact hclock.1
    · rw [hcomm, hclock.2, hstime]
    · rw [(enter_clock now ws g).1]; exact hns
    · exact (enter_clock now ws g).2
    · rw [(remove_clock g).1]; exact hns
    · exact (remove_clock g).2
  · intro hs
    exact addCharacter_clock now ws c g hs

theorem session_start_semantics_witness :
    (AddCharacter (secNS 5) [] 'x' overlongFresh).IsStarted = true ∧
    (AddCharacter (secNS 5) [] 'x' overlongFresh).StartTime = secNS 5 ∧
    (HandleEnterKey (secNS 5) [] overlongFresh).2.IsStarted = false ∧
    (HandleEnterKey (secNS 5) [] overlongFresh).2.StartTime = overlongFresh.StartTime ∧
    (RemoveCharacter overlongFresh).IsStarted = false ∧
    (RemoveCharacter overlongFresh).StartTime = overlongFresh.StartTime :=
  (session_start_semantics (secNS 5) [] 'x' overlongFresh).1 (by decide)

/-! ## Claim C2 -/

/-- Claim C2: on a started session, `GetStats` uses the configured duration
as elapsed time once time is up and the true wall-clock elapsed time
otherwise; WPM is `GlobalPos / 5 / elapsedMinutes` (minutes being elapsed
nanoseconds over `60·10⁹`), is `0` when the elapsed time is zero (or
negative), and is never negative. -/
theorem getStats_elapsed_and_wpm (now : ℤ) (g : TypingGame)
    (hs : g.IsStarted = true) (hg : 0 ≤ g.GlobalPos) :
    (GetStats now g).TimeElapsed =
      (if IsTimeUp now g then g.Duration * nsPerSecond else now - g.StartTime) ∧
    (GetStats now g).WPM =
      (if 0 < (GetStats now g).TimeElapsed then
        (g.GlobalPos : ℚ) / 5 /
          (((GetStats now g).TimeElapsed : ℚ) / (60 * (nsPerSecond : ℚ)))
      else 0) ∧
    0 ≤ (GetStats now g).WPM := by
  have hTE : (GetStats now g).TimeElapsed =
      (if IsTimeUp now g then g.Duration * nsPerSecond else now - g.StartTime) := by
    simp only [GetStats, hs, Bool.not_true, Bool.false_eq_true, if_false]
  refine ⟨hTE, ?_, ?_⟩
  all_goals {
    simp only [GetStats, hs, Bool.not_true, Bool.false_eq_true, if_false] at hTE ⊢
    set t : ℤ := if IsTimeUp now g = true then g.Duration * nsPerSecond
      else now - g.StartTime with hdt
    have hden : (0 : ℚ) < 60 * (nsPerSecond : ℚ) := by norm_num [nsPerSecond]
    have hminpos : (0 : ℚ) < (t : ℚ) / (60 * (nsPerSecond : ℚ)) ↔ 0 < t := by
      rw [lt_div_iff₀ hden]
      simp [Int.cast_pos]
    by_cases hpos : 0 < t
    · have hm : (0 : ℚ) < (t : ℚ) / (60 * (nsPerSecond : ℚ)) := hminpos.mpr hpos
      have hwnn : (0 : ℚ) ≤ (g.GlobalPos : ℚ) / 5 / ((t : ℚ) / (60 * (nsPerSecond : ℚ))) := by
        apply div_nonneg
        · apply div_nonneg
          · exact_mod_cast hg
          · norm_num
        · exact le_of_lt hm
      simp [hm, hpos, not_lt.mpr hwnn]
      try exact hwnn
    · have hm : ¬ (0 : ℚ) < (t : ℚ) / (60 * (nsPerSecond : ℚ)) := by
        rw [hminpos]; exact hpos
      simp [hm, hpos]
  }

def statScenario : TypingGame :=
  runOps (NewTypingGame [['a', 'b'], ['c', 'd']] 10)
    [.add 0 [] 'a', .add 0 [] 'b', .add 0 [] ' ', .add 0 [] 'c', .add 0 [] 'd']

theorem getStats_elapsed_and_wpm_witness :
    (GetStats (secNS 20) statScenario).TimeElapsed = 10 * nsPerSecond ∧
    (GetStats (secNS 20) statScenario).WPM = 6 ∧
    0 ≤ (GetStats (secNS 20) statScenario).WPM := by
  have h := getStats_elapsed_and_wpm (secNS 20) statScenario (by decide) (by decide)
  have ht : IsTimeUp (secNS 20) statScenario = true := by decide
  have hTE : (GetStats (secNS 20) statScenario).TimeElapsed = 10 * nsPerSecond := by
    rw [h.1, ht]
    decide
  refine ⟨hTE, ?_, h.2.2⟩
  rw [h.2.1, hTE]
  have hg5 : statScenario.GlobalPos = 5 := by decide
  rw [hg5]
  norm_num [nsPerSecond]

/-! ## Claim C4 -/

/-- Claim C4: on a running session with the cursor strictly inside the first
display line, `AddCharacter c` (space included) compares the line character
at the cursor with `c`; a mismatch records an error at the current
`GlobalPos` and increments the cumulative mistake counter, a match changes
neither; in both cases `CurrentPos` and `GlobalPos` advance by exactly one
and no line advance happens (display window, word counts and word buffer are
untouched). -/
theorem addCharacter_midline_contract (now : ℤ) (ws : List (List Char))
    (c : Char) (g : TypingGame)
    (hs : g.IsStarted = true) (hf : g.IsFinished = false)
    (ht : IsTimeUp now g = false)
    (hlo : 0 ≤ g.CurrentPos)
    (hhi : g.CurrentPos < ((g.DisplayLines.headD []).length : ℤ)) :
    (AddCharacter now ws c g).CurrentPos = g.CurrentPos + 1 ∧
    (AddCharacter now ws c g).GlobalPos = g.GlobalPos + 1 ∧
    (AddCharacter now ws c g).DisplayLines = g.DisplayLines ∧
    (AddCharacter now ws c g).WordsTyped = g.WordsTyped ∧
    (AddCharacter now ws c g).AllWords = g.AllWords ∧
    ((g.DisplayLines.headD []).get? g.CurrentPos.toNat ≠ some c →
      (AddCharacter now ws c g).Errors = insert g.GlobalPos g.Errors ∧
      (AddCharacter now ws c g).TotalErrorsMade = g.TotalErrorsMade + 1) ∧
    ((g.DisplayLines.headD []).get? g.CurrentPos.toNat = some c →
      (AddCharacter now ws c g).Errors = g.Errors ∧
      (AddCharacter now ws c g).TotalErrorsMade = g.TotalErrorsMade) := by
  rw [addCharacter_midline_eq now ws c g hs hf ht hlo hhi]
  by_cases hm : (g.DisplayLines.headD []).get? g.CurrentPos.toNat = some c
  · rw [if_neg (by simpa using hm)]
    exact ⟨rfl, rfl, rfl, rfl, rfl, fun h => absurd hm h, fun _ => ⟨rfl, rfl⟩⟩
  · rw [if_pos hm]
    exact ⟨rfl, rfl, rfl, rfl, rfl, fun _ => ⟨rfl, rfl⟩, fun h => absurd h hm⟩

theorem addCharacter_midline_contract_witness :
    (AddCharacter (secNS 1) [] 'x' typedOne).CurrentPos = typedOne.CurrentPos + 1 ∧
    (AddCharacter (secNS 1) [] 'x' typedOne).GlobalPos = typedOne.GlobalPos + 1 ∧
    (AddCharacter (secNS 1) [] 'x' typedOne).Errors
      = insert typedOne.GlobalPos typedOne.Errors ∧
    (AddCharacter (secNS 1) [] 'x' typedOne).TotalErrorsMade
      = typedOne.TotalErrorsMade + 1 := by
  have h := addCharacter_midline_contract (secNS 1) [] 'x' typedOne
    (by decide) (by decide) (by decide) (by decide) (by decide)
  have hm := h.2.2.2.2.2.1 (by decide)
  exact ⟨h.1, h.2.1, hm.1, hm.2⟩

/-! ## Claim C5 -/

theorem mistype_backspace_general (now : ℤ) (ws : List (List Char)) (c : Char)
    (g : TypingGame)
    (hs : g.IsStarted = true) (hf : g.IsFinished = false)
    (ht : IsTimeUp now g = false)
    (hlo : 0 ≤ g.CurrentPos)
    (hhi : g.CurrentPos < ((g.DisplayLines.headD []).length : ℤ))
    (hmis : (g.DisplayLines.headD []).get? g.CurrentPos.toNat ≠ some c)
    (hkey : g.GlobalPos ∉ g.Errors) :
    (RemoveCharacter (AddCharacter now ws c g)).Errors = g.Errors ∧
    (RemoveCharacter (AddCharacter now ws c g)).TotalErrorsMade
      = g.TotalErrorsMade + 1 := by
  rw [addCharacter_midline_eq now ws c g hs hf ht hlo hhi, if_pos hmis]
  rw [removeCharacter_eq _ (by simp) (by simp only; omega)]
  simp only
  constructor
  · rw [show g.GlobalPos + 1 - 1 = g.GlobalPos by omega]
    exact Finset.erase_insert hkey
  · trivial

/-- The session state reached from a fresh session by a sequence of events. -/
def reachAfter (w : List (List Char)) (d : ℤ) (ops : List GameOp) : TypingGame :=
  runOps (NewTypingGame w d) ops

/-- Claim C5: in every reachable running session, a mistyped character
(non-matching rune mid-line) followed immediately by a backspace restores the
error set exactly to its prior state while the cumulative mistake counter
stays incremented by one. -/
theorem mistype_then_backspace (w : List (List Char)) (d : ℤ)
    (ops : List GameOp) (now : ℤ) (ws : List (List Char)) (c : Char)
    (hs : (reachAfter w d ops).IsStarted = true)
    (hf : (reachAfter w d ops).IsFinished = false)
    (ht : IsTimeUp now (reachAfter w d ops) = false)
    (hlo : 0 ≤ (reachAfter w d ops).CurrentPos)
    (hhi : (reachAfter w d ops).CurrentPos
      < (((reachAfter w d ops).DisplayLines.headD []).length : ℤ))
    (hmis : ((reachAfter w d ops).DisplayLines.headD []).get?
      (reachAfter w d ops).CurrentPos.toNat ≠ some c) :
    (RemoveCharacter (AddCharacter now ws c (reachAfter w d ops))).Errors
      = (reachAfter w d ops).Errors ∧
    (RemoveCharacter (AddCharacter now ws c (reachAfter w d ops))).TotalErrorsMade
      = (reachAfter w d ops).TotalErrorsMade + 1 := by
  apply mistype_backspace_general now ws c _ hs hf ht hlo hhi hmis
  intro hmem
  have hinv := inv_reachable w d ops
  exact absurd (hinv.2.2.1 _ hmem) (lt_irrefl _)

theorem mistype_then_backspace_witness :
    (RemoveCharacter (AddCharacter (secNS 1) [] 'x'
        (reachAfter [['a', 'b']] 10 [.add 0 [] 'a']))).Errors
      = (reachAfter [['a', 'b']] 10 [.add 0 [] 'a']).Errors ∧
    (RemoveCharacter (AddCharacter (secNS 1) [] 'x'
        (reachAfter [['a', 'b']] 10 [.add 0 [] 'a']))).TotalErrorsMade
      = (reachAfter [['a', 'b']] 10 [.add 0 [] 'a']).TotalErrorsMade + 1 :=
  mistype_then_backspace [['a', 'b']] 10 [.add 0 [] 'a'] (secNS 1) [] 'x'
    (by decide) (by decide) (by decide) (by decide) (by decide) (by decide)

/-! ## Claim C6 -/

theorem isTimeUp_started (now : ℤ) (g : TypingGame)
    (h : IsTimeUp now g = true) : g.IsStarted = true := by
  by_contra hs
  rw [IsTimeUp, bool_eq_false hs] at h
  simp at h

theorem isTimeUp_mono (now1 now2 : ℤ) (g : TypingGame)
    (h : IsTimeUp now1 g = true) (h12 : now1 ≤ now2) :
    IsTimeUp now2 g = true := by
  have hs := isTimeUp_started now1 g h
  rw [IsTimeUp, hs] at h ⊢
  simp only [Bool.not_true, Bool.false_eq_true, if_false, decide_eq_true_eq] at h ⊢
  omega

/-- Claim C6 (amended): `GetStats` is a pure function of the session state
and the clock reading (it mutates nothing, by construction of the
embedding); two calls with the same clock reading trivially agree, and once
time is up all later calls return the identical record.  Before time-up,
however, two calls separated by wall-clock time differ in `TimeElapsed`
(and generally WPM), since elapsed time enters the result. -/
theorem getStats_stable_after_timeup (g : TypingGame) (now1 now2 : ℤ)
    (h1 : IsTimeUp now1 g = true) (h12 : now1 ≤ now2) :
    GetStats now1 g = GetStats now2 g := by
  have hs := isTimeUp_started now1 g h1
  have h2 := isTimeUp_mono now1 now2 g h1 h12
  simp only [GetStats, hs, Bool.not_true, Bool.false_eq_true, if_false, h1, h2,
    ite_true]

theorem getStats_stable_after_timeup_witness :
    GetStats (secNS 20) typedOne = GetStats (secNS 30) typedOne :=
  getStats_stable_after_timeup typedOne (secNS 20) (secNS 30)
    (by decide) (by decide)

/-- Claim C6, counterexample: with no mutating operation in between, two
`GetStats` calls one second apart on a running (not yet timed-out) session
return different records — the elapsed wall-clock time enters `TimeElapsed`
and WPM, so `GetStats` is not idempotent across time. -/
theorem getStats_differs_across_clock :
    IsTimeUp (secNS 2) typedOne = false ∧
    GetStats (secNS 1) typedOne ≠ GetStats (secNS 2) typedOne := by
  refine ⟨by decide, fun h => ?_⟩
  have := congrArg TypingStats.TimeElapsed h
  revert this
  decide

/-! ## Claims C7 and C8 -/

/-- Claim C7: every reachable session state has a display window of exactly
`LinesPerView = 3` lines (short windows are padded, never fewer entries),
and every successful line advance re-establishes this and resets the cursor
to `0`. -/
theorem display_window_always_three_lines (w : List (List Char)) (d : ℤ)
    (ops : List GameOp) (ws : List (List Char)) (g : TypingGame) :
    (runOps (NewTypingGame w d) ops).DisplayLines.length = 3 ∧
    (runOps (NewTypingGame w d) ops).LinesPerView = 3 ∧
    (shiftLines ws g).DisplayLines.length = g.LinesPerView ∧
    (shiftLines ws g).CurrentPos = 0 := by
  have h := inv_reachable w d ops
  refine ⟨?_, h.2.2.2.2, shiftLines_length ws g, shiftLines_CurrentPos ws g⟩
  rw [h.2.2.2.1, h.2.2.2.2]

/-- Claim C8: `RemoveCharacter` is a strict no-op when the cursor is at the
line start or no input has been entered; otherwise it decrements `CurrentPos`
and `GlobalPos` by exactly one and deletes any error recorded at the
resulting `GlobalPos`; and in every reachable state `GlobalPos` is
non-negative. -/
theorem removeCharacter_contract :
    (∀ g : TypingGame, g.CurrentPos = 0 ∨ g.UserInput = [] →
      RemoveCharacter g = g) ∧
    (∀ g : TypingGame, g.UserInput ≠ [] → 0 < g.CurrentPos →
      (RemoveCharacter g).CurrentPos = g.CurrentPos - 1 ∧
      (RemoveCharacter g).GlobalPos = g.GlobalPos - 1 ∧
      (RemoveCharacter g).Errors = g.Errors.erase (g.GlobalPos - 1)) ∧
    (∀ (w : List (List Char)) (d : ℤ) (ops : List GameOp),
      0 ≤ (runOps (NewTypingGame w d) ops).GlobalPos) := by
  refine ⟨removeCharacter_noop, ?_, ?_⟩
  · intro g hu hp
    rw [removeCharacter_eq g hu hp]
    exact ⟨rfl, rfl, rfl⟩
  · intro w d ops
    have h := inv_reachable w d ops
    exact le_trans h.1 h.2.1

theorem removeCharacter_contract_witness :
    RemoveCharacter (NewTypingGame [['a', 'b']] 10) = NewTypingGame [['a', 'b']] 10 ∧
    ((RemoveCharacter typedOne).CurrentPos = typedOne.CurrentPos - 1 ∧
      (RemoveCharacter typedOne).GlobalPos = typedOne.GlobalPos - 1 ∧
      (RemoveCharacter typedOne).Errors = typedOne.Errors.erase (typedOne.GlobalPos - 1)) ∧
    0 ≤ (runOps (NewTypingGame [['a', 'b']] 10) [.add 0 [] 'a', .remove]).GlobalPos :=
  ⟨removeCharacter_contract.1 _ (Or.inl (by decide)),
   removeCharacter_contract.2.1 typedOne (by decide) (by decide),
   removeCharacter_contract.2.2 [['a', 'b']] 10 [.add 0 [] 'a', .remove]⟩

/-! ## Claim C9 -/

/-- Claim C9 (amended): after every line advance the growth policy runs: when
the words consumed so far come strictly closer than 50 to the buffer's total
length (at most 49 unconsumed words remain), exactly 100 more words are
appended at the end and existing entries are untouched; otherwise — including
at a remaining distance of exactly 50 — the buffer is unchanged. -/
theorem buffer_growth_policy (ws : List (List Char)) (g : TypingGame)
    (h100 : ws.length = 100) :
    (shiftLines ws g).WordsTyped
      = g.WordsTyped + (fields (g.DisplayLines.headD [])).length ∧
    (g.AllWords.length
        < g.WordsTyped + (fields (g.DisplayLines.headD [])).length + 50 →
      (shiftLines ws g).AllWords = g.AllWords ++ ws ∧
      (shiftLines ws g).AllWords.length = g.AllWords.length + 100) ∧
    (g.WordsTyped + (fields (g.DisplayLines.headD [])).length + 50
        ≤ g.AllWords.length →
      (shiftLines ws g).AllWords = g.AllWords) := by
  refine ⟨(shiftLines_proj ws g).2.2.2.2.2.2.2.2.1, ?_, ?_⟩
  · intro hlow
    have hcond : (generateDisplayLines { g with
        WordsTyped := g.WordsTyped + (fields (g.DisplayLines.headD [])).length
        CurrentPos := 0 }).AllWords.length
        < (generateDisplayLines { g with
            WordsTyped := g.WordsTyped + (fields (g.DisplayLines.headD [])).length
            CurrentPos := 0 }).WordsTyped + 50 := by
      simp only [generateDisplayLines]
      omega
    constructor
    · simp only [shiftLines, if_pos hcond]
      rfl
    · simp only [shiftLines, if_pos hcond, List.length_append, h100]
      rfl
  · intro hhigh
    have hcond : ¬ ((generateDisplayLines { g with
        WordsTyped := g.WordsTyped + (fields (g.DisplayLines.headD [])).length
        CurrentPos := 0 }).AllWords.length
        < (generateDisplayLines { g with
            WordsTyped := g.WordsTyped + (fields (g.DisplayLines.headD [])).length
            CurrentPos := 0 }).WordsTyped + 50) := by
      simp only [generateDisplayLines]
      omega
    simp only [shiftLines, if_neg hcond]
    rfl

theorem buffer_growth_policy_witness :
    (shiftLines (List.replicate 100 ['b']) (NewTypingGame [['a']] 10)).AllWords
      = (NewTypingGame [['a']] 10).AllWords ++ List.replicate 100 ['b'] ∧
    (shiftLines (List.replicate 100 ['b']) (NewTypingGame [['a']] 10)).AllWords.length
      = (NewTypingGame [['a']] 10).AllWords.length + 100 :=
  (buffer_growth_policy (List.replicate 100 ['b']) (NewTypingGame [['a']] 10)
    (by decide)).2.1 (by decide)

/-- A fresh session over 75 one-character words: the first display line packs
exactly 25 of them, so a line advance leaves exactly 50 unconsumed words. -/
def growthEdge : TypingGame := NewTypingGame (List.replicate 75 ['a']) 10

/-- The keystrokes that type out a whole line correctly and then the space
that triggers the line advance. -/
def typeLineOps (ws : List (List Char)) (l : List Char) : List GameOp :=
  (l ++ [' ']).map (fun c => GameOp.add 0 ws c)

set_option maxRecDepth 100000 in
/-- Claim C9, counterexample: a genuine line advance after which the consumed
count (25) is within exactly 50 of the buffer length (75) — "within 50" — yet
the growth policy appends nothing, because the code's check is strict
(`WordsTyped > len(AllWords)-50`). -/
theorem growth_policy_boundary_no_append :
    (runOps growthEdge (typeLineOps (List.replicate 100 ['b'])
        (growthEdge.DisplayLines.headD []))).WordsTyped = 25 ∧
    growthEdge.AllWords.length = 75 ∧
    (runOps growthEdge (typeLineOps (List.replicate 100 ['b'])
        (growthEdge.DisplayLines.headD []))).AllWords = growthEdge.AllWords := by
  decide

/-! ## Claim C10 -/

theorem fields_nil : fields [] = [] := rfl

theorem fillLine_overlong (cpl : ℕ) (w : List Char) (ws : List (List Char))
    (hlen : cpl < w.length) : fillLine cpl [] (w :: ws) = ([], w :: ws) := by
  unfold fillLine
  simp only [List.length_nil, lt_irrefl, if_false]
  rw [if_neg (by omega)]

theorem generateDisplayLines_blocked_head (g : TypingGame) (w : List Char)
    (hw : g.AllWords.get? g.WordsTyped = some w)
    (hlen : g.CharsPerLine < w.length) :
    (generateDisplayLines g).DisplayLines.headD [] = [] := by
  obtain ⟨hlt, hget⟩ := List.get?_eq_some.mp hw
  have hdrop : g.AllWords.drop g.WordsTyped
      = w :: g.AllWords.drop (g.WordsTyped + 1) := by
    rw [List.drop_eq_getElem_cons hlt]
    congr 1
  simp only [generateDisplayLines, hdrop]
  cases hn : g.LinesPerView with
  | zero => simp [genLines]
  | succ n =>
    simp only [genLines, fillLine_overlong g.CharsPerLine w _ hlen]
    rfl

theorem blocked_shift (ws : List (List Char)) (G : TypingGame) (w0 : ℕ)
    (w : List Char)
    (hWT : G.WordsTyped = w0)
    (hw : G.AllWords.get? w0 = some w) (hlen : G.CharsPerLine < w.length)
    (hhd : G.DisplayLines.headD [] = []) :
    (shiftLines ws G).WordsTyped = w0 ∧
    (shiftLines ws G).AllWords.get? w0 = some w ∧
    (shiftLines ws G).CharsPerLine = G.CharsPerLine ∧
    (shiftLines ws G).DisplayLines.headD [] = [] := by
  have hlt : w0 < G.AllWords.length := by
    have := (List.get?_eq_some.mp hw).1
    exact this
  have hfe : (fields (G.DisplayLines.headD [])).length = 0 := by
    rw [hhd, fields_nil]
    rfl
  have hWT1 : ({ G with
      WordsTyped := G.WordsTyped + (fields (G.DisplayLines.headD [])).length
      CurrentPos := 0 } : TypingGame).WordsTyped = w0 := by
    simp only [hfe, hWT, Nat.add_zero]
  have hhead : (generateDisplayLines { G with
      WordsTyped := G.WordsTyped + (fields (G.DisplayLines.headD [])).length
      CurrentPos := 0 }).DisplayLines.headD [] = [] := by
    apply generateDisplayLines_blocked_head _ w
    · rw [hWT1]
      exact hw
    · exact hlen
  simp only [shiftLines]
  split
  · refine ⟨hWT1, ?_, rfl, hhead⟩
    show (G.AllWords ++ ws).get? w0 = some w
    rw [List.get?_append hlt]
    exact hw
  · exact ⟨hWT1, hw, rfl, hhead⟩

theorem blocked_applyOp (op : GameOp) (g : TypingGame) (w0 : ℕ) (w : List Char)
    (hWT : g.WordsTyped = w0)
    (hw : g.AllWords.get? w0 = some w) (hlen : g.CharsPerLine < w.length)
    (hhd : g.DisplayLines.headD [] = []) :
    (applyOp g op).WordsTyped = w0 ∧
    (applyOp g op).AllWords.get? w0 = some w ∧
    (applyOp g op).CharsPerLine = g.CharsPerLine ∧
    (applyOp g op).DisplayLines.headD [] = [] := by
  cases op with
  | remove =>
    simp only [applyOp]
    unfold RemoveCharacter
    split <;> exact ⟨hWT, hw, rfl, hhd⟩
  | enter now ws =>
    simp only [applyOp]
    by_cases hf : g.IsFinished = true
    · rw [handleEnter_timeup_eq now ws g (Or.inl hf)]; exact ⟨hWT, hw, rfl, hhd⟩
    · by_cases ht : IsTimeUp now g = true
      · rw [handleEnter_timeup_eq now ws g (Or.inr ht)]; exact ⟨hWT, hw, rfl, hhd⟩
      · by_cases he : g.CurrentPos = ((g.DisplayLines.headD []).length : ℤ)
        · rw [handleEnter_atEnd_eq now ws g (bool_eq_false hf) (bool_eq_false ht) he]
          exact blocked_shift ws _ w0 w hWT hw hlen hhd
        · rw [handleEnter_midline_eq now ws g (bool_eq_false hf)
            (bool_eq_false ht) he]
          exact ⟨hWT, hw, rfl, hhd⟩
  | add now ws c =>
    simp only [applyOp]
    suffices H : ∀ g' : TypingGame, g'.IsStarted = true → g'.WordsTyped = w0 →
        g'.AllWords.get? w0 = some w → g'.CharsPerLine < w.length →
        g'.DisplayLines.headD [] = [] →
        (AddCharacter now ws c g').WordsTyped = w0 ∧
        (AddCharacter now ws c g').AllWords.get? w0 = some w ∧
        (AddCharacter now ws c g').CharsPerLine = g'.CharsPerLine ∧
        (AddCharacter now ws c g').DisplayLines.headD [] = [] by
      by_cases hs : g.IsStarted = true
      · exact H g hs hWT hw hlen hhd
      · rw [addCharacter_start_comm now ws c g (bool_eq_false hs)]
        have hp : (Start now g).WordsTyped = g.WordsTyped ∧
            (Start now g).AllWords = g.AllWords ∧
            (Start now g).CharsPerLine = g.CharsPerLine ∧
            (Start now g).DisplayLines = g.DisplayLines := by
          unfold Start
          split <;> exact ⟨rfl, rfl, rfl, rfl⟩
        obtain ⟨q1, q2, q3, q4⟩ := H (Start now g)
          (by simp [Start, bool_eq_false hs])
          (hp.1.trans hWT) (by rw [hp.2.1]; exact hw)
          (by rw [hp.2.2.1]; exact hlen) (by rw [hp.2.2.2]; exact hhd)
        exact ⟨q1, q2, q3.trans hp.2.2.1, q4⟩
    intro g hs hWT hw hlen hhd
    by_cases hf : g.IsFinished = true
    · rw [addCharacter_timeup_eq now ws c g hs (Or.inl hf)]
      exact ⟨hWT, hw, rfl, hhd⟩
    · by_cases ht : IsTimeUp now g = true
      · rw [addCharacter_timeup_eq now ws c g hs (Or.inr ht)]
        exact ⟨hWT, hw, rfl, hhd⟩
      · by_cases he : g.CurrentPos = ((g.DisplayLines.headD []).length : ℤ)
        · by_cases hc : c = ' '
          · subst hc
            rw [addCharacter_atEnd_space_eq now ws g hs (bool_eq_false hf)
              (bool_eq_false ht) he]
            exact blocked_shift ws _ w0 w hWT hw hlen hhd
          · rw [addCharacter_atEnd_nonspace_eq now ws c g hs (bool_eq_false hf)
              (bool_eq_false ht) hc he]
            exact ⟨hWT, hw, rfl, hhd⟩
        · by_cases hmid : g.CurrentPos < ((g.DisplayLines.headD []).length : ℤ) ∧
              0 ≤ g.CurrentPos
          · rw [addCharacter_midline_eq now ws c g hs (bool_eq_false hf)
              (bool_eq_false ht) hmid.2 hmid.1]
            split <;> exact ⟨hWT, hw, rfl, hhd⟩
          · rw [addCharacter_offline_eq now ws c g hs (bool_eq_false hf)
              (bool_eq_false ht) he hmid]
            exact ⟨hWT, hw, rfl, hhd⟩

theorem blocked_runOps (ops : List GameOp) (g : TypingGame) (w0 : ℕ)
    (w : List Char)
    (hWT : g.WordsTyped = w0)
    (hw : g.AllWords.get? w0 = some w) (hlen : g.CharsPerLine < w.length)
    (hhd : g.DisplayLines.headD [] = []) :
    (runOps g ops).WordsTyped = w0 := by
  induction ops generalizing g with
  | nil => exact hWT
  | cons op ops ih =>
    obtain ⟨h1, h2, h3, h4⟩ := blocked_applyOp op g w0 w hWT hw hlen hhd
    exact ih (applyOp g op) h1 h2 (h3 ▸ hlen) h4

/-- Claim C10: when the word at index `WordsTyped` is longer than
`CharsPerLine`, the regenerated first display line is empty, a line advance
from such an empty line adds zero to `WordsTyped`, and no sequence of
`AddCharacter` / `HandleEnterKey` / `RemoveCharacter` events ever advances
`WordsTyped` past that word — it permanently blocks consumption. -/
theorem overlong_word_blocks_consumption (g : TypingGame) (ops : List GameOp)
    (ws : List (List Char)) (w : List Char)
    (hw : g.AllWords.get? g.WordsTyped = some w)
    (hlen : g.CharsPerLine < w.length)
    (hhd : g.DisplayLines.headD [] = []) :
    (generateDisplayLines g).DisplayLines.headD [] = [] ∧
    (shiftLines ws g).WordsTyped = g.WordsTyped ∧
    (runOps g ops).WordsTyped = g.WordsTyped := by
  refine ⟨generateDisplayLines_blocked_head g w hw hlen, ?_,
    blocked_runOps ops g g.WordsTyped w rfl hw hlen hhd⟩
  have := (blocked_shift ws g g.WordsTyped w rfl hw hlen hhd).1
  exact this

theorem overlong_word_blocks_consumption_witness :
    (generateDisplayLines overlongFresh).DisplayLines.headD [] = [] ∧
    (shiftLines [] overlongFresh).WordsTyped = overlongFresh.WordsTyped ∧
    (runOps overlongFresh
      [.add 0 [] ' ', .enter (secNS 1) [], .remove]).WordsTyped
      = overlongFresh.WordsTyped :=
  overlong_word_blocks_consumption overlongFresh
    [.add 0 [] ' ', .enter (secNS 1) [], .remove] [] (List.replicate 51 'a')
    (by decide) (by decide) (by decide)

end Zentype
